import Mathlib

/-!
Verification development for the session-management core of the
gramio session plugin.

The embedding covers:
- proxy.ts — the identity-aware proxy factory (createProxy, getTarget,
  the get / set / deleteProperty traps);
- session-manager.ts — createSessionWithClear (save, markDirty, the
  non-enumerable reset capability) and loadSessionData;
- derive-eager.ts (manager variant) together with the bundled
  in-memory-storage.ts — the eager unit of work over the process-wide
  state: the module-level proxy caches of proxy.ts persist across
  units of work, every wrapper keeps the markDirty closure captured
  when it was first created (createProxy discards the onUpdate
  argument on a cache hit), and the in-memory storage stores and
  returns object references verbatim while save stores only a shallow
  copy, so nested containers are shared between units of work;
- the lazy plugin variant — a getter that loads the session on first
  access, caches the manager, and returns a fresh future per access.

JavaScript object references are modelled as addresses into an explicit
heap; plain objects are association lists of enumerable own fields; the
external storage collaborator is a key-value map together with a trace
of every get / set / delete call it receives, so that claims about how
many storage calls a unit of work performs become statements about the
trace. Storage failures are modelled by an explicit outcome parameter:
the external collaborator either fulfills the call or rejects it with
an error value, and a rejection propagates before any subsequent
statement of the source function runs.
-/

namespace GramioSession

/-- Primitive leaf values (strings, numbers, booleans, null) that pass
through the proxy unmodified. -/
inductive Val where
  | vStr : String → Val
  | vNum : Int → Val
  | vBool : Bool → Val
  | vNull : Val
deriving Repr, DecidableEq

/-- A value stored in a field of a raw container: either a primitive
leaf, or a reference to another raw container in the heap (a nested
plain object or array). -/
inductive FieldVal where
  | prim : Val → FieldVal
  | ref : Nat → FieldVal
deriving Repr, DecidableEq

/-- A raw container: the association list of its enumerable own
properties, in insertion order (the order a for-in loop visits). -/
abbrev Container := List (String × FieldVal)

/-- First-match association lookup, shared by containers, the heap, the
storage entries and the proxy caches. -/
def getFirst {α : Type} [DecidableEq α] {β : Type} : List (α × β) → α → Option β
  | [], _ => none
  | (a, b) :: rest, x => if a = x then some b else getFirst rest x

/-- Property write on a raw container, as the JavaScript assignment
target[key] = v behaves: an existing key keeps its position in the
enumeration order, a new key is appended at the end. -/
def setField : Container → String → FieldVal → Container
  | [], k, v => [(k, v)]
  | (k1, v1) :: rest, k, v =>
      if k1 = k then (k, v) :: rest else (k1, v1) :: setField rest k v

/-- Property deletion on a raw container: delete target[key]. -/
def removeField (c : Container) (k : String) : Container :=
  c.filter (fun p => p.1 != k)

/-- Field lookup on a raw container: target[key], none for a missing
property. -/
def lookupField (c : Container) (k : String) : Option FieldVal :=
  getFirst c k

/-- The copy loop of save (session-manager.ts lines 50 to 55): iterate
the enumerable own properties in order and keep every key other than
the reset capability key. The non-enumerable capability installed by
defineProperty never appears in a for-in loop, and the explicit filter
also drops an enumerable data field that happens to use that key. -/
def dataToStore (c : Container) : Container :=
  c.filter (fun p => p.1 != "$clear")

/-- The copy loop of the reset capability (session-manager.ts lines 85
to 87): for each enumerable key of newData, write it into the target
through a plain assignment, bypassing the proxy. -/
def copyFields (dst : Container) (src : Container) : Container :=
  src.foldl (fun d kv => setField d kv.1 kv.2) dst

/-- The heap: raw container references are addresses. -/
abbrev Heap := List (Nat × Container)

/-- Look up the container at an address. -/
def heapGet (h : Heap) (a : Nat) : Option Container :=
  getFirst h a

/-- Replace (or install) the container at an address; the container at
every other address is untouched. -/
def heapSet : Heap → Nat → Container → Heap
  | [], a, c => [(a, c)]
  | (a1, c1) :: rest, a, c =>
      if a1 = a then (a, c) :: rest else (a1, c1) :: heapSet rest a c

/-- The enumerable own fields of the container a proxy target address
denotes (empty for a dangling address, which never occurs in reachable
states). -/
def getTargetFields (h : Heap) (a : Nat) : Container :=
  (heapGet h a).getD []

/-- The raw read target[key] performed inside the get trap. -/
def targetRead (h : Heap) (a : Nat) (k : String) : Option FieldVal :=
  lookupField (getTargetFields h a) k

/-- One call received by the external storage collaborator. -/
inductive StorageOp where
  | getOp : String → StorageOp
  | setOp : String → Container → StorageOp
  | deleteOp : String → StorageOp
deriving Repr, DecidableEq

/-- The external storage collaborator: its key-value entries plus the
trace of every call issued to it, oldest first. -/
structure Storage where
  entries : List (String × Container)
  trace : List StorageOp
deriving Repr, DecidableEq

/-- storage.get(key): returns the stored value or absence, and records
the call. -/
def storageGet (key : String) (st : Storage) : Option Container × Storage :=
  (getFirst st.entries key, { st with trace := st.trace ++ [.getOp key] })

/-- storage.set(key, value): stores the value under the key and records
the call. -/
def storageSet (key : String) (v : Container) (st : Storage) : Storage :=
  { entries := (key, v) :: st.entries.filter (fun p => p.1 != key),
    trace := st.trace ++ [.setOp key v] }

/-- storage.delete(key): removes the entry for the key and records the
call. -/
def storageDelete (key : String) (st : Storage) : Storage :=
  { entries := st.entries.filter (fun p => p.1 != key),
    trace := st.trace ++ [.deleteOp key] }

/-- The number of set calls for a given key in a trace. -/
def setCount (key : String) : List StorageOp → Nat
  | [] => 0
  | .setOp k _ :: rest => (if k = key then 1 else 0) + setCount key rest
  | _ :: rest => setCount key rest

/-- The number of get calls for a given key in a trace. -/
def getCount (key : String) : List StorageOp → Nat
  | [] => 0
  | .getOp k :: rest => (if k = key then 1 else 0) + getCount key rest
  | _ :: rest => getCount key rest

/-- The module-level proxy caches of proxy.ts: proxyCache associates a
raw container reference with its proxy, targetCache associates a proxy
back with its raw target, and nextPid supplies the identity of the next
proxy object allocated by the Proxy constructor. -/
structure ProxyState where
  proxyCache : List (Nat × Nat)
  targetCache : List (Nat × Nat)
  nextPid : Nat
deriving Repr, DecidableEq

/-- createProxy on a raw container reference (proxy.ts lines 14 to 52):
if the cache already holds a proxy for this reference, return it;
otherwise allocate a new proxy, record it in both caches, and return
it. The early return for non-object values is handled at the call
sites, where only container references are wrapped. -/
def createProxy (ps : ProxyState) (a : Nat) : Nat × ProxyState :=
  match getFirst ps.proxyCache a with
  | some pid => (pid, ps)
  | none =>
      (ps.nextPid,
       { proxyCache := (a, ps.nextPid) :: ps.proxyCache,
         targetCache := (ps.nextPid, a) :: ps.targetCache,
         nextPid := ps.nextPid + 1 })

/-- What the get trap hands back: a wrapper when the read value is a
plain object or array, otherwise the primitive value itself (none for
a missing property). -/
inductive GetResult where
  | wrapped : Nat → GetResult
  | primVal : Option Val → GetResult
deriving Repr, DecidableEq

/-- The get trap (proxy.ts lines 28 to 34): read the raw value; wrap a
nested container through createProxy, pass a primitive through. -/
def trapGet (h : Heap) (ps : ProxyState) (a : Nat) (k : String) :
    GetResult × ProxyState :=
  match targetRead h a k with
  | some (.ref b) =>
      let r := createProxy ps b
      (.wrapped r.1, r.2)
  | some (.prim v) => (.primVal (some v), ps)
  | none => (.primVal none, ps)

/-- A session manager as created by createSessionWithClear: the address
of its raw target and its dirty flag. -/
structure SessionMgr where
  rawAddr : Nat
  dirty : Bool
deriving Repr, DecidableEq

/-- The set trap (proxy.ts lines 35 to 39) on a wrapper whose raw
target is the container at address a, owned by manager m: write the
raw container, invoke markDirty, return true. -/
def trapSet (h : Heap) (a : Nat) (k : String) (v : FieldVal) (m : SessionMgr) :
    Heap × SessionMgr × Bool :=
  (heapSet h a (setField (getTargetFields h a) k v), { m with dirty := true }, true)

/-- The deleteProperty trap (proxy.ts lines 40 to 44): delete the field
from the raw container, invoke markDirty, return true. -/
def trapDelete (h : Heap) (a : Nat) (k : String) (m : SessionMgr) :
    Heap × SessionMgr × Bool :=
  (heapSet h a (removeField (getTargetFields h a) k), { m with dirty := true }, true)

/-- Following a path of keys through nested get traps, starting from a
wrapper of the container at the given address: each step reads the raw
field and, when it is a nested container, wraps it through createProxy
and continues; at the end of the path the handle is the wrapper of the
container reached. Returns none when the path runs into a primitive or
missing field. -/
def accessPath (h : Heap) : ProxyState → Nat → List String → Option Nat × ProxyState
  | ps, a, [] =>
      let r := createProxy ps a
      (some r.1, r.2)
  | ps, a, k :: rest =>
      match targetRead h a k with
      | some (.ref b) =>
          let r := createProxy ps b
          accessPath h r.2 b rest
      | _ => (none, ps)

/-- An opaque error value thrown by the external storage collaborator. -/
abbrev Err := String

/-- save (session-manager.ts lines 45 to 58), with the outcome of the
storage.set call made explicit (none: the call fulfills; some e: the
call rejects with e). If the session is not dirty, return at once with
no storage call. Otherwise build dataToStore from the raw target and
issue storage.set(sessionKey, dataToStore); the call is recorded in the
trace in either outcome, but on rejection the error propagates to the
caller before the statement dirty = false runs, so the entries and the
dirty flag are left as they were. -/
def saveWith (key : String) (h : Heap) (m : SessionMgr) (st : Storage)
    (setOutcome : Option Err) : Option Err × SessionMgr × Storage :=
  if m.dirty then
    match setOutcome with
    | some e =>
        (some e, m,
         { st with trace := st.trace ++ [.setOp key (dataToStore (getTargetFields h m.rawAddr))] })
    | none =>
        (none, { m with dirty := false },
         storageSet key (dataToStore (getTargetFields h m.rawAddr)) st)
  else (none, m, st)

/-- The reset capability installed by createSessionWithClear
(session-manager.ts lines 69 to 88), with the outcome of the
storage.delete call made explicit. On rejection the error propagates
before anything else runs. On fulfillment: dirty = false; newData is
the initializer baseline, or an empty mapping when there is none (or
when the initializer produced null); every enumerable field of the raw
target is deleted in place, then the fields of newData are copied in,
bypassing the proxy; the raw reference itself is never replaced. -/
def clearWith (key : String) (h : Heap) (m : SessionMgr) (st : Storage)
    (baseline : Option Container) (deleteOutcome : Option Err) :
    Option Err × Heap × SessionMgr × Storage :=
  match deleteOutcome with
  | some e => (some e, h, m, { st with trace := st.trace ++ [.deleteOp key] })
  | none =>
      let st1 := storageDelete key st
      let newData := baseline.getD []
      let finalFields := copyFields [] newData
      (none, heapSet h m.rawAddr finalFields, { m with dirty := false }, st1)

/-- createSessionWithClear (session-manager.ts lines 27 to 97): place
the session data in the heap as the raw target, wrap it through
createProxy with a markDirty callback and a dirty flag starting false,
and install the reset capability through defineProperty with
enumerable false — the capability therefore never joins the enumerable
fields of the target and is not part of the container. Returns the new
heap, the next free address, the proxy state, the manager and the
proxy id of the wrapped session. -/
def createSession (h : Heap) (nextAddr : Nat) (ps : ProxyState)
    (sessionData : Container) : Heap × Nat × ProxyState × SessionMgr × Nat :=
  let h1 := heapSet h nextAddr sessionData
  let r := createProxy ps nextAddr
  (h1, nextAddr + 1, r.2, { rawAddr := nextAddr, dirty := false }, r.1)

/-- loadSessionData (session-manager.ts lines 107 to 120): one
storage.get; the session data is the stored value, else the
initializer baseline, else an empty mapping. -/
def loadSessionData (key : String) (baseline : Option Container) (st : Storage) :
    Container × Storage :=
  let r := storageGet key st
  (r.1.getD (baseline.getD []), r.2)

/-- The state of the lazy session accessor for one unit of work (lazy
plugin, manager variant): the loaded flag and cached manager of the
derive closure, the storage collaborator, and — to reason about object
identity of the futures the getter hands out — the identity of the
next promise the getter allocates together with the list of futures
returned so far, each paired with the session instantiation it
resolves to. instantiations counts the createSessionWithClear calls
performed. -/
structure LazyState where
  loaded : Bool
  managerIdx : Option Nat
  managerFields : Container
  managerDirty : Bool
  instantiations : Nat
  storage : Storage
  nextFutureId : Nat
  futures : List (Nat × Option Nat)
deriving Repr, DecidableEq

/-- One invocation of the lazy session accessor, awaited to completion
(lazy plugin, derive getter): every invocation allocates a fresh
promise (the async function expression is called anew each time). If
the closure is not yet loaded, the promise resolves after one
storage.get and one createSessionWithClear, caching the manager and
setting loaded; otherwise it resolves at once to the cached manager
session, with no storage call and no new instantiation. -/
def lazyAccess (key : String) (baseline : Option Container) (s : LazyState) :
    LazyState :=
  let fid := s.nextFutureId
  if s.loaded then
    { s with nextFutureId := fid + 1,
             futures := s.futures ++ [(fid, s.managerIdx)] }
  else
    let l := loadSessionData key baseline s.storage
    let idx := s.instantiations
    { loaded := true, managerIdx := some idx, managerFields := l.1,
      managerDirty := false, instantiations := idx + 1, storage := l.2,
      nextFutureId := fid + 1, futures := s.futures ++ [(fid, some idx)] }

/-- The end-of-update hook of the lazy plugin (lines 203 to 210 of the
lazy plugin source): if no manager was ever stored for the context the
hook skips entirely; otherwise it saves only when the manager is
dirty. The persisted payload is dataToStore of the raw target. -/
def endHookLazy (key : String) (s : LazyState) : LazyState :=
  match s.managerIdx with
  | none => s
  | some _ =>
      if s.managerDirty then
        { s with storage := storageSet key (dataToStore s.managerFields) s.storage,
                 managerDirty := false }
      else s

/-- n sequential invocations of the lazy accessor. -/
def lazyAccessN (key : String) (baseline : Option Container) :
    Nat → LazyState → LazyState
  | 0, s => s
  | n + 1, s => lazyAccessN key baseline n (lazyAccess key baseline s)

/-- The initial state of the lazy derive closure for one unit of work. -/
def lazyInit (st0 : Storage) : LazyState :=
  { loaded := false, managerIdx := none, managerFields := [],
    managerDirty := false, instantiations := 0, storage := st0,
    nextFutureId := 0, futures := [] }

/-- One lazy unit of work in which handler logic invokes the session
accessor n times (sequentially awaited) and performs no mutation,
followed by the end-of-update hook. -/
def runLazyUoW (key : String) (baseline : Option Container) (n : Nat)
    (st0 : Storage) : LazyState :=
  endHookLazy key (lazyAccessN key baseline n (lazyInit st0))

/-- Update of the dirty flag of the manager with the given id. Each
createSessionWithClear call owns one dirty variable (session-manager.ts
line 37); markDirty is the closure setting it to true, and save and the
reset capability set it back to false. -/
def setDirtyAt : List SessionMgr → Nat → Bool → List SessionMgr
  | [], _, _ => []
  | m :: rest, 0, b => { m with dirty := b } :: rest
  | m :: rest, n + 1, b => m :: setDirtyAt rest n b

/-- The manager with the given id, when it exists. -/
def mgrAt : List SessionMgr → Nat → Option SessionMgr
  | [], _ => none
  | m :: _, 0 => some m
  | _ :: rest, n + 1 => mgrAt rest n

/-- The process-wide state of the source module across units of work:
the heap of raw containers, the module-level proxy caches of proxy.ts
(which live for the whole process), the association of each proxy with
the id of the manager whose markDirty closure its handler captured
when it was first created, the managers created so far (each with its
raw target address and dirty flag), the bundled in-memory storage of
in-memory-storage.ts — a map from key to the stored object reference,
returned verbatim by get — and the trace of storage calls. -/
structure Proc where
  heap : Heap
  nextAddr : Nat
  ps : ProxyState
  owner : List (Nat × Nat)
  managers : List SessionMgr
  mem : List (String × Nat)
  trace : List StorageOp
deriving Repr, DecidableEq

/-- createProxy as called with a markDirty callback (proxy.ts lines 14
to 52): the identity-cache step is createProxy; on a cache miss the
new proxy handler closes over the onUpdate passed in this call, which
is recorded in owner; on a cache hit the cached proxy is returned
unchanged and the onUpdate argument of this call is discarded — the
handler keeps the callback captured when the proxy was first created. -/
def wrapWith (ps : ProxyState) (owner : List (Nat × Nat)) (a mid : Nat) :
    Nat × ProxyState × List (Nat × Nat) :=
  match getFirst ps.proxyCache a with
  | some pid => (pid, ps, owner)
  | none =>
      let r := createProxy ps a
      (r.1, r.2, (r.1, mid) :: owner)

/-- get of the bundled in-memory storage (in-memory-storage.ts): it
returns the stored object reference itself, with no copy, recording
the call. -/
def memGet (key : String) (p : Proc) : Option Nat × Proc :=
  (getFirst p.mem key, { p with trace := p.trace ++ [.getOp key] })

/-- set of the bundled in-memory storage: the object reference is
stored as is; the recorded trace payload is the mapping value passed
at call time. -/
def memSet (key : String) (a : Nat) (p : Proc) : Proc :=
  { p with mem := (key, a) :: p.mem.filter (fun q => q.1 != key),
           trace := p.trace ++ [.setOp key (getTargetFields p.heap a)] }

/-- The get trap through an existing wrapper (proxy.ts lines 28 to
34): read the raw field of the wrapper target; wrap a nested container
with the onUpdate THIS handler captured at its own creation; pass
anything else through (primitives and missing fields yield no
wrapper). -/
def procGet (p : Proc) (pid : Nat) (k : String) : Option Nat × Proc :=
  match getFirst p.ps.targetCache pid, getFirst p.owner pid with
  | some a, some mid =>
      match targetRead p.heap a k with
      | some (.ref b) =>
          let r := wrapWith p.ps p.owner b mid
          (some r.1, { p with ps := r.2.1, owner := r.2.2 })
      | _ => (none, p)
  | _, _ => (none, p)

/-- The set trap through an existing wrapper (proxy.ts lines 35 to
39): write the raw container of the wrapper target, then invoke the
markDirty closure the handler captured at creation — which belongs to
the manager that first wrapped this container, not necessarily to the
manager of the current unit of work. -/
def procSet (p : Proc) (pid : Nat) (k : String) (v : FieldVal) : Proc :=
  match getFirst p.ps.targetCache pid, getFirst p.owner pid with
  | some a, some mid =>
      { p with heap := heapSet p.heap a (setField (getTargetFields p.heap a) k v),
               managers := setDirtyAt p.managers mid true }
  | _, _ => p

/-- The deleteProperty trap through an existing wrapper (proxy.ts
lines 40 to 44), invoking the same captured markDirty closure. -/
def procDelete (p : Proc) (pid : Nat) (k : String) : Proc :=
  match getFirst p.ps.targetCache pid, getFirst p.owner pid with
  | some a, some mid =>
      { p with heap := heapSet p.heap a (removeField (getTargetFields p.heap a) k),
               managers := setDirtyAt p.managers mid true }
  | _, _ => p

/-- createSessionWithClear over an already existing raw object (the
eager derive passes the object returned by loadSessionData, which with
the bundled in-memory storage is the stored object itself): a new
manager with its own dirty flag starting false, whose markDirty the
top-level wrapper captures if and only if that raw object was not yet
wrapped. The reset capability install is non-enumerable and adds no
field. Returns the session wrapper, the new manager id and the new
state. -/
def procCreateSession (p : Proc) (a : Nat) : Nat × Nat × Proc :=
  let mid := p.managers.length
  let r := wrapWith p.ps p.owner a mid
  (r.1, mid,
   { p with ps := r.2.1, owner := r.2.2,
            managers := p.managers ++ [{ rawAddr := a, dirty := false }] })

/-- save (session-manager.ts lines 45 to 58) in the process model: if
the manager is not dirty, return with no storage call; otherwise build
dataToStore as a NEW object — a shallow copy of the enumerable fields
other than the reset key, sharing every nested container reference —
store that object through the in-memory set, and clear the dirty
flag. -/
def procSave (key : String) (mid : Nat) (p : Proc) : Proc :=
  match mgrAt p.managers mid with
  | none => p
  | some m =>
      if m.dirty then
        let copy := dataToStore (getTargetFields p.heap m.rawAddr)
        let p1 := { p with heap := heapSet p.heap p.nextAddr copy,
                           nextAddr := p.nextAddr + 1 }
        let p2 := memSet key p.nextAddr p1
        { p2 with managers := setDirtyAt p2.managers mid false }
      else p

/-- End-of-update hook of the eager plugin (derive-eager.ts lines 112
to 119): after all handlers, if the manager stored for this context
reports isDirty, await save once. -/
def procEndHook (key : String) (mid : Nat) (p : Proc) : Proc :=
  match mgrAt p.managers mid with
  | some m => if m.dirty then procSave key mid p else p
  | none => p

/-- Navigation of a nested access path from a wrapper, one get trap
per step. -/
def navigate (p : Proc) (pid : Nat) : List String → Option Nat × Proc
  | [] => (some pid, p)
  | k :: rest =>
      match procGet p pid k with
      | (some q, p1) => navigate p1 q rest
      | (none, p1) => (none, p1)

/-- One operation of handler logic in a unit of work, addressed by an
access path from the derived session: each operation re-traverses the
wrapped session from the top (as an expression such as
context.session.items.push does) and then writes or deletes a field
through the wrapper it reached. -/
inductive ProcHOp where
  | setPath : List String → String → FieldVal → ProcHOp
  | deletePath : List String → String → ProcHOp
deriving Repr, DecidableEq

/-- Run one handler operation through the session wrapper. -/
def runHOp (sessionPid : Nat) (p : Proc) : ProcHOp → Proc
  | .setPath path k v =>
      match navigate p sessionPid path with
      | (some q, p1) => procSet p1 q k v
      | (none, p1) => p1
  | .deletePath path k =>
      match navigate p sessionPid path with
      | (some q, p1) => procDelete p1 q k
      | (none, p1) => p1

/-- Allocation of the fresh containers an initializer call constructs,
at consecutive addresses. -/
def allocAll : Heap → Nat → List Container → Heap
  | h, _, [] => h
  | h, a, c :: rest => allocAll (heapSet h a c) (a + 1) rest

/-- One eager unit of work (derive-eager.ts, manager variant) in the
process model, whose module-level caches, heap, managers and storage
persist across units of work: derive loads the session data with one
storage get — on a hit the stored object reference itself, on a miss
fresh containers built by the initializer (binit lists, given the base
address, the containers it allocates; the last one is the root) —
creates the session manager over that raw object, runs the handler
script through the wrapped session, and finally the end-of-update hook
saves at most once. -/
def procUoW (key : String) (binit : Nat → List Container)
    (script : List ProcHOp) (p : Proc) : Proc :=
  let g := memGet key p
  let load : Nat × Proc :=
    match g.1 with
    | some a => (a, g.2)
    | none =>
        let cs := binit g.2.nextAddr
        (g.2.nextAddr + cs.length - 1,
         { g.2 with heap := allocAll g.2.heap g.2.nextAddr cs,
                    nextAddr := g.2.nextAddr + cs.length })
  let c := procCreateSession load.2 load.1
  let p3 := script.foldl (runHOp c.1) c.2.2
  procEndHook key c.2.1 p3

/-- The empty process state: nothing wrapped, nothing stored. -/
def procInit : Proc :=
  { heap := [], nextAddr := 0,
    ps := { proxyCache := [], targetCache := [], nextPid := 0 },
    owner := [], managers := [], mem := [], trace := [] }

/-- The initializer of the failing scenario for the batching claim,
modelling initial: () => ({ items: [] }): a fresh empty array and a
fresh root object whose items field references it. -/
def nestedBaseline : Nat → List Container :=
  fun base => [[], [("items", FieldVal.ref base)]]

/-- Handler script of update 1: access context.session.items, then
write its first element (the property write a push performs). -/
def pushFirst : List ProcHOp :=
  [.setPath ["items"] "0" (.prim (.vStr "a"))]

/-- Handler script of update 2: the same access path, writing a second
element. -/
def pushSecond : List ProcHOp :=
  [.setPath ["items"] "1" (.prim (.vStr "b"))]

/-- The process state after the first unit of work of the failing
scenario. -/
def afterUpdate1 : Proc := procUoW "k" nestedBaseline pushFirst procInit

/-- The process state after the second unit of work of the failing
scenario. -/
def afterUpdate2 : Proc := procUoW "k" nestedBaseline pushSecond afterUpdate1

/-! Supporting lemmas about the association-list, heap, trace and proxy
operations. -/

theorem getFirst_filter_self {β : Type}
    (l : List (String × β)) (x : String) :
    getFirst (l.filter (fun p => p.1 != x)) x = none := by
  induction l with
  | nil => simp [getFirst]
  | cons p rest ih =>
      obtain ⟨a, b⟩ := p
      rw [List.filter_cons]
      by_cases hp : a = x
      · simp [hp, ih]
      · simp only [bne_iff_ne, ne_eq, hp, not_false_eq_true, if_true]
        simp [getFirst, hp, ih]

theorem getFirst_filter_other {β : Type}
    (l : List (String × β)) (x y : String) (hxy : y ≠ x) :
    getFirst (l.filter (fun p => p.1 != x)) y = getFirst l y := by
  induction l with
  | nil => simp [getFirst]
  | cons p rest ih =>
      obtain ⟨a, b⟩ := p
      rw [List.filter_cons]
      by_cases hp : a = x
      · simp [hp, getFirst, Ne.symm hxy, ih]
      · simp only [bne_iff_ne, ne_eq, hp, not_false_eq_true, if_true]
        simp [getFirst, ih]

theorem heapGet_heapSet_self (h : Heap) (a : Nat) (c : Container) :
    heapGet (heapSet h a c) a = some c := by
  induction h with
  | nil => simp [heapSet, heapGet, getFirst]
  | cons p rest ih =>
      obtain ⟨a1, c1⟩ := p
      by_cases hp : a1 = a
      · simp [heapSet, hp, heapGet, getFirst]
      · simp only [heapSet, hp, if_false]
        simp only [heapGet, getFirst, hp, if_false] at ih ⊢
        exact ih

theorem heapGet_heapSet_other (h : Heap) (a b : Nat) (c : Container)
    (hba : b ≠ a) :
    heapGet (heapSet h a c) b = heapGet h b := by
  induction h with
  | nil =>
      simp [heapSet, heapGet, getFirst, Ne.symm hba]
  | cons p rest ih =>
      obtain ⟨a1, c1⟩ := p
      by_cases hp : a1 = a
      · have hab : a1 ≠ b := by rw [hp]; exact Ne.symm hba
        simp [heapSet, hp, heapGet, getFirst, hab, Ne.symm hba]
      · simp only [heapSet, hp, if_false]
        by_cases hpb : a1 = b
        · simp [heapGet, getFirst, hpb]
        · simp only [heapGet, getFirst, hpb, if_false] at ih ⊢
          exact ih

theorem setCount_append (key : String) (t1 t2 : List StorageOp) :
    setCount key (t1 ++ t2) = setCount key t1 + setCount key t2 := by
  induction t1 with
  | nil => simp [setCount]
  | cons op rest ih => cases op <;> simp [setCount, ih, Nat.add_assoc]

theorem getCount_append (key : String) (t1 t2 : List StorageOp) :
    getCount key (t1 ++ t2) = getCount key t1 + getCount key t2 := by
  induction t1 with
  | nil => simp [getCount]
  | cons op rest ih => cases op <;> simp [getCount, ih, Nat.add_assoc]

theorem setField_of_not_mem (dst : Container) (k : String) (v : FieldVal)
    (hk : k ∉ dst.map Prod.fst) :
    setField dst k v = dst ++ [(k, v)] := by
  induction dst with
  | nil => simp [setField]
  | cons p rest ih =>
      obtain ⟨a, b⟩ := p
      simp only [List.map_cons, List.mem_cons] at hk
      push_neg at hk
      simp [setField, Ne.symm hk.1, ih hk.2]

theorem copyFields_of_disjoint :
    ∀ (src dst : Container),
      (src.map Prod.fst).Nodup →
      (∀ k ∈ src.map Prod.fst, k ∉ dst.map Prod.fst) →
      copyFields dst src = dst ++ src := by
  intro src
  induction src with
  | nil =>
      intro dst _ _
      simp [copyFields]
  | cons p rest ih =>
      intro dst hnd hdisj
      obtain ⟨a, b⟩ := p
      simp only [List.map_cons, List.nodup_cons] at hnd
      have hp : a ∉ dst.map Prod.fst := hdisj a (by simp)
      have hstep : copyFields dst ((a, b) :: rest)
          = copyFields (setField dst a b) rest := rfl
      rw [hstep, setField_of_not_mem dst a b hp]
      have hdisj2 : ∀ k ∈ rest.map Prod.fst, k ∉ (dst ++ [(a, b)]).map Prod.fst := by
        intro k hk
        simp only [List.map_append, List.mem_append, List.map_cons, List.map_nil,
          List.mem_singleton]
        push_neg
        constructor
        · exact hdisj k (by simp [hk])
        · intro h2
          exact hnd.1 (h2 ▸ hk)
      rw [ih (dst ++ [(a, b)]) hnd.2 hdisj2]
      simp

theorem copyFields_nil_of_nodup (src : Container)
    (hnd : (src.map Prod.fst).Nodup) :
    copyFields [] src = src := by
  have := copyFields_of_disjoint src [] hnd (by simp)
  simpa using this

theorem createProxy_lookup (ps : ProxyState) (a : Nat) :
    getFirst (createProxy ps a).2.proxyCache a = some (createProxy ps a).1 := by
  rcases hc : getFirst ps.proxyCache a with _ | pid
  · simp [createProxy, hc, getFirst]
  · simp [createProxy, hc]

theorem createProxy_cached (ps : ProxyState) (a pid : Nat)
    (hc : getFirst ps.proxyCache a = some pid) :
    createProxy ps a = (pid, ps) := by
  simp [createProxy, hc]

theorem createProxy_mono (ps : ProxyState) (a b pid : Nat)
    (hb : getFirst ps.proxyCache b = some pid) :
    getFirst (createProxy ps a).2.proxyCache b = some pid := by
  rcases hc : getFirst ps.proxyCache a with _ | q
  · have hab : a ≠ b := fun h2 => by rw [h2, hb] at hc; exact Option.noConfusion hc
    simp [createProxy, hc, getFirst, hab, hb]
  · simp [createProxy, hc, hb]

theorem accessPath_mono (h : Heap) (path : List String) :
    ∀ (ps : ProxyState) (a b pid : Nat),
      getFirst ps.proxyCache b = some pid →
      getFirst (accessPath h ps a path).2.proxyCache b = some pid := by
  induction path with
  | nil =>
      intro ps a b pid hb
      simpa [accessPath] using createProxy_mono ps a b pid hb
  | cons k rest ih =>
      intro ps a b pid hb
      rcases ht : targetRead h a k with _ | fv
      · simpa [accessPath, ht] using hb
      · cases fv with
        | prim v => simpa [accessPath, ht] using hb
        | ref c =>
            simp only [accessPath, ht]
            exact ih (createProxy ps c).2 c b pid (createProxy_mono ps c b pid hb)

theorem accessPath_stable (h : Heap) (path : List String) :
    ∀ (ps : ProxyState) (a : Nat),
      accessPath h (accessPath h ps a path).2 a path = accessPath h ps a path := by
  induction path with
  | nil =>
      intro ps a
      simp only [accessPath]
      rw [createProxy_cached (createProxy ps a).2 a (createProxy ps a).1
        (createProxy_lookup ps a)]
  | cons k rest ih =>
      intro ps a
      rcases ht : targetRead h a k with _ | fv
      · simp [accessPath, ht]
      · cases fv with
        | prim v => simp [accessPath, ht]
        | ref b =>
            simp only [accessPath, ht]
            have hb : getFirst (accessPath h (createProxy ps b).2 b rest).2.proxyCache b
                = some (createProxy ps b).1 :=
              accessPath_mono h rest (createProxy ps b).2 b b (createProxy ps b).1
                (createProxy_lookup ps b)
            rw [createProxy_cached _ b _ hb]
            exact ih (createProxy ps b).2 b

/-- C2: wrapping the same raw container reference twice yields
referentially identical wrapper handles, and two traversals of the
same nested access path (through the recursively wrapping get traps)
within one unit of work return the same wrapper and leave the proxy
caches unchanged the second time. -/
theorem proxy_identity :
    (∀ (ps : ProxyState) (a : Nat),
      createProxy (createProxy ps a).2 a = createProxy ps a)
    ∧ (∀ (h : Heap) (ps : ProxyState) (a : Nat) (path : List String),
      accessPath h (accessPath h ps a path).2 a path = accessPath h ps a path) := by
  constructor
  · intro ps a
    exact createProxy_cached (createProxy ps a).2 a (createProxy ps a).1
      (createProxy_lookup ps a)
  · intro h ps a path
    exact accessPath_stable h path ps a

theorem lazyAccessN_loaded (key : String) (baseline : Option Container) :
    ∀ (n : Nat) (s : LazyState), s.loaded = true →
      lazyAccessN key baseline n s
        = { s with nextFutureId := s.nextFutureId + n,
                   futures := s.futures
                     ++ (List.range' s.nextFutureId n).map (fun f => (f, s.managerIdx)) } := by
  intro n
  induction n with
  | zero =>
      intro s hs
      simp [lazyAccessN]
  | succ n ih =>
      intro s hs
      obtain ⟨ld, mi, mf, md, ins, st, fid, fut⟩ := s
      replace hs : ld = true := hs
      subst hs
      show lazyAccessN key baseline n (lazyAccess key baseline _) = _
      rw [show lazyAccess key baseline
            ⟨true, mi, mf, md, ins, st, fid, fut⟩
          = ⟨true, mi, mf, md, ins, st, fid + 1, fut ++ [(fid, mi)]⟩ from rfl]
      rw [ih _ rfl]
      simp only [List.range'_succ, List.map_cons, List.cons_append,
        List.append_assoc, List.singleton_append, LazyState.mk.injEq,
        true_and, and_true]
      constructor
      · omega
      · rfl

/-- C3: a lazy unit of work that never invokes the session accessor
performs no storage call at all and instantiates no session; one that
invokes the accessor any positive number of times performs exactly one
storage get for the key, and nothing else. -/
theorem lazy_skip_single_read (key : String) (baseline : Option Container)
    (n : Nat) (st0 : Storage) :
    (n = 0 →
      (runLazyUoW key baseline n st0).storage = st0
      ∧ (runLazyUoW key baseline n st0).instantiations = 0)
    ∧ (1 ≤ n →
      (runLazyUoW key baseline n st0).storage.trace
        = st0.trace ++ [.getOp key]) := by
  constructor
  · intro h0
    subst h0
    exact ⟨rfl, rfl⟩
  · intro hn
    obtain ⟨m, rfl⟩ : ∃ m, n = m + 1 := ⟨n - 1, by omega⟩
    show (endHookLazy key (lazyAccessN key baseline m
        (lazyAccess key baseline (lazyInit st0)))).storage.trace = _
    rw [show lazyAccess key baseline (lazyInit st0)
        = { loaded := true, managerIdx := some 0,
            managerFields := (getFirst st0.entries key).getD (baseline.getD []),
            managerDirty := false, instantiations := 1,
            storage := { st0 with trace := st0.trace ++ [.getOp key] },
            nextFutureId := 1, futures := [(0, some 0)] } from rfl]
    rw [lazyAccessN_loaded key baseline m _ rfl]
    rfl

/-- Witness for C3 at a concrete unit of work with three accesses. -/
theorem lazy_skip_single_read_witness :
    (1 ≤ 3)
    ∧ (runLazyUoW "k" none 3 { entries := [], trace := [] }).storage.trace
      = ({ entries := [], trace := [] } : Storage).trace ++ [.getOp "k"] :=
  ⟨by decide,
   (lazy_skip_single_read "k" none 3 { entries := [], trace := [] }).2 (by decide)⟩

/-- C4 counterexample: two sequential invocations of the lazy session
accessor in one unit of work return two distinct future objects
(identities 0 and 1) — the getter calls a fresh async function
expression on every invocation — so the subsequent invocation does not
return the very same future object as the first. -/
theorem lazy_future_identity_counterexample :
    (runLazyUoW "key" none 2 { entries := [], trace := [] }).futures
      = [(0, some 0), (1, some 0)]
    ∧ (0 : Nat) ≠ 1 :=
  ⟨rfl, by decide⟩

/-- C4 (amended): the first invocation of the lazy accessor loads and
caches the handle; each invocation returns a newly allocated future,
but every one of the n futures resolves to the identical cached
session (instantiation 0), with exactly one storage get and exactly
one session instantiation for the whole unit of work. -/
theorem lazy_access_caching (key : String) (baseline : Option Container)
    (n : Nat) (st0 : Storage) (hn : 1 ≤ n) :
    (runLazyUoW key baseline n st0).instantiations = 1
    ∧ (runLazyUoW key baseline n st0).storage.trace = st0.trace ++ [.getOp key]
    ∧ (runLazyUoW key baseline n st0).futures.map Prod.fst = List.range' 0 n
    ∧ (runLazyUoW key baseline n st0).futures.map Prod.snd
        = List.replicate n (some 0) := by
  obtain ⟨m, rfl⟩ : ∃ m, n = m + 1 := ⟨n - 1, by omega⟩
  have hrun : runLazyUoW key baseline (m + 1) st0
      = { loaded := true, managerIdx := some 0,
          managerFields := (getFirst st0.entries key).getD (baseline.getD []),
          managerDirty := false, instantiations := 1,
          storage := { st0 with trace := st0.trace ++ [.getOp key] },
          nextFutureId := 1 + m,
          futures := [((0 : Nat), some (0 : Nat))]
            ++ (List.range' 1 m).map (fun f => (f, some 0)) } := by
    show endHookLazy key (lazyAccessN key baseline m
        (lazyAccess key baseline (lazyInit st0))) = _
    rw [show lazyAccess key baseline (lazyInit st0)
        = { loaded := true, managerIdx := some 0,
            managerFields := (getFirst st0.entries key).getD (baseline.getD []),
            managerDirty := false, instantiations := 1,
            storage := { st0 with trace := st0.trace ++ [.getOp key] },
            nextFutureId := 1, futures := [(0, some 0)] } from rfl]
    rw [lazyAccessN_loaded key baseline m _ rfl]
    rfl
  rw [hrun]
  refine ⟨rfl, rfl, ?_, ?_⟩
  · rw [List.range'_succ]
    simp [List.map_map,
      show (Prod.fst ∘ fun f : Nat => (f, some (0 : Nat))) = id from rfl]
  · simp [List.map_map, List.replicate_succ, List.map_const',
      show (Prod.snd ∘ fun f : Nat => (f, some (0 : Nat)))
        = (fun _ => some 0) from rfl]

/-- Witness for C4 (amended) at two concrete accesses. -/
theorem lazy_access_caching_witness :
    (1 ≤ 2)
    ∧ (runLazyUoW "k" none 2 { entries := [], trace := [] }).instantiations = 1 :=
  ⟨by decide,
   (lazy_access_caching "k" none 2 { entries := [], trace := [] } (by decide)).1⟩

/-- C5: the reset capability deletes the persisted entry (one delete,
no set), leaves the dirty flag false, keeps the raw reference — the
manager address — unchanged while mutating the container at that
address in place to the initializer baseline (or an empty mapping when
there is none), so reads through any previously obtained wrapper of
the raw target now observe exactly the baseline values; every other
container in the heap is untouched. -/
theorem clear_resets_in_place (key : String) (h : Heap) (m : SessionMgr)
    (st : Storage) (baseline : Option Container) :
    (clearWith key h m st baseline none).1 = none
    ∧ (clearWith key h m st baseline none).2.2.1.rawAddr = m.rawAddr
    ∧ (clearWith key h m st baseline none).2.2.1.dirty = false
    ∧ getFirst (clearWith key h m st baseline none).2.2.2.entries key = none
    ∧ (clearWith key h m st baseline none).2.2.2.trace
        = st.trace ++ [.deleteOp key]
    ∧ (∀ k, targetRead (clearWith key h m st baseline none).2.1 m.rawAddr k
        = lookupField (copyFields [] (baseline.getD [])) k)
    ∧ (((baseline.getD []).map Prod.fst).Nodup →
        getTargetFields (clearWith key h m st baseline none).2.1 m.rawAddr
          = baseline.getD [])
    ∧ (∀ a, a ≠ m.rawAddr →
        heapGet (clearWith key h m st baseline none).2.1 a = heapGet h a) := by
  refine ⟨rfl, rfl, rfl, ?_, rfl, ?_, ?_, ?_⟩
  · exact getFirst_filter_self st.entries key
  · intro k
    show targetRead (heapSet h m.rawAddr (copyFields [] (baseline.getD [])))
        m.rawAddr k = _
    simp [targetRead, getTargetFields, heapGet_heapSet_self]
  · intro hnd
    show getTargetFields (heapSet h m.rawAddr (copyFields [] (baseline.getD [])))
        m.rawAddr = _
    simp [getTargetFields, heapGet_heapSet_self, copyFields_nil_of_nodup _ hnd]
  · intro a ha
    exact heapGet_heapSet_other h m.rawAddr a _ ha

/-- Witness for C5 at a concrete reset: a two-container heap, a stored
entry for the key, and a one-field baseline; after the reset the other
container is untouched and the raw target holds exactly the baseline. -/
theorem clear_resets_in_place_witness :
    ((0 : Nat) ≠ 5)
    ∧ (([("c", FieldVal.prim (Val.vNum 0))] : Container).map Prod.fst).Nodup
    ∧ heapGet (clearWith "k"
        [(5, [("a", FieldVal.prim (Val.vNum 1))]), (0, [("z", FieldVal.prim Val.vNull)])]
        { rawAddr := 5, dirty := true }
        (storageSet "k" [("a", FieldVal.prim (Val.vNum 3))] { entries := [], trace := [] })
        (some [("c", FieldVal.prim (Val.vNum 0))]) none).2.1 0
      = heapGet [(5, [("a", FieldVal.prim (Val.vNum 1))]),
          (0, [("z", FieldVal.prim Val.vNull)])] 0
    ∧ getTargetFields (clearWith "k"
        [(5, [("a", FieldVal.prim (Val.vNum 1))]), (0, [("z", FieldVal.prim Val.vNull)])]
        { rawAddr := 5, dirty := true }
        (storageSet "k" [("a", FieldVal.prim (Val.vNum 3))] { entries := [], trace := [] })
        (some [("c", FieldVal.prim (Val.vNum 0))]) none).2.1 5
      = [("c", FieldVal.prim (Val.vNum 0))] :=
  ⟨by decide, by decide,
   (clear_resets_in_place "k"
      [(5, [("a", FieldVal.prim (Val.vNum 1))]), (0, [("z", FieldVal.prim Val.vNull)])]
      { rawAddr := 5, dirty := true }
      (storageSet "k" [("a", FieldVal.prim (Val.vNum 3))] { entries := [], trace := [] })
      (some [("c", FieldVal.prim (Val.vNum 0))])).2.2.2.2.2.2.2 0 (by decide),
   (clear_resets_in_place "k"
      [(5, [("a", FieldVal.prim (Val.vNum 1))]), (0, [("z", FieldVal.prim Val.vNull)])]
      { rawAddr := 5, dirty := true }
      (storageSet "k" [("a", FieldVal.prim (Val.vNum 3))] { entries := [], trace := [] })
      (some [("c", FieldVal.prim (Val.vNum 0))])).2.2.2.2.2.2.1 (by decide)⟩

/-- C6: the persisted mapping never contains the reset capability key:
dataToStore always excludes it, every set that save issues carries a
dataToStore payload, and session creation installs the capability
non-enumerably, leaving the enumerable fields of the raw target exactly
the session data. -/
theorem clear_key_never_persisted :
    (∀ c : Container, lookupField (dataToStore c) "$clear" = none)
    ∧ (∀ (key : String) (h : Heap) (m : SessionMgr) (st : Storage),
        (saveWith key h m st none).2.2.trace = st.trace
        ∨ (saveWith key h m st none).2.2.trace
          = st.trace ++ [.setOp key (dataToStore (getTargetFields h m.rawAddr))])
    ∧ (∀ (h : Heap) (na : Nat) (ps : ProxyState) (c : Container),
        getTargetFields (createSession h na ps c).1 na = c) := by
  refine ⟨?_, ?_, ?_⟩
  · intro c
    exact getFirst_filter_self c "$clear"
  · intro key h m st
    cases hd : m.dirty
    · left
      simp [saveWith, hd]
    · right
      simp [saveWith, hd, storageSet]
  · intro h na ps c
    simp [createSession, getTargetFields, heapGet_heapSet_self]

/-- C7: save is idempotent — when the session is dirty it persists the
stripped mapping through one storage.set and clears the dirty flag; an
immediately following save with no intervening tracked mutation
performs no storage call and changes nothing at all. -/
theorem save_idempotent (key : String) (h : Heap) (m : SessionMgr)
    (st : Storage) :
    (saveWith key h
        (saveWith key h m st none).2.1 (saveWith key h m st none).2.2 none)
      = (none, (saveWith key h m st none).2.1, (saveWith key h m st none).2.2)
    ∧ (m.dirty = true →
        (saveWith key h m st none).2.1.dirty = false
        ∧ (saveWith key h m st none).2.2
          = storageSet key (dataToStore (getTargetFields h m.rawAddr)) st) := by
  cases hd : m.dirty
  · constructor
    · simp [saveWith, hd]
    · intro hcontra
      exact absurd hcontra (by simp [hd])
  · constructor
    · simp [saveWith, hd]
    · intro _
      exact ⟨by simp [saveWith, hd], by simp [saveWith, hd]⟩

/-- Witness for C7 at a concrete dirty session. -/
theorem save_idempotent_witness :
    (({ rawAddr := 0, dirty := true } : SessionMgr).dirty = true)
    ∧ (saveWith "k" [(0, [("a", FieldVal.prim (Val.vNum 1))])]
        { rawAddr := 0, dirty := true } { entries := [], trace := [] }
        none).2.1.dirty = false :=
  ⟨rfl,
   ((save_idempotent "k" [(0, [("a", FieldVal.prim (Val.vNum 1))])]
      { rawAddr := 0, dirty := true } { entries := [], trace := [] }).2 rfl).1⟩

/-- C8: deleting a field through a wrapper removes it from the raw
container, invokes the owning session mark-dirty callback and reports
success; every other field is unchanged, and flushing afterwards
persists the container without the deleted field. -/
theorem delete_propagation (h : Heap) (m : SessionMgr) (st : Storage)
    (key k : String) :
    (trapDelete h m.rawAddr k m).2.2 = true
    ∧ (trapDelete h m.rawAddr k m).2.1.dirty = true
    ∧ targetRead (trapDelete h m.rawAddr k m).1 m.rawAddr k = none
    ∧ (∀ k2, k2 ≠ k →
        targetRead (trapDelete h m.rawAddr k m).1 m.rawAddr k2
          = targetRead h m.rawAddr k2)
    ∧ getFirst (saveWith key (trapDelete h m.rawAddr k m).1
        (trapDelete h m.rawAddr k m).2.1 st none).2.2.entries key
      = some (dataToStore (removeField (getTargetFields h m.rawAddr) k)) := by
  refine ⟨rfl, rfl, ?_, ?_, ?_⟩
  · show targetRead (heapSet h m.rawAddr
        (removeField (getTargetFields h m.rawAddr) k)) m.rawAddr k = none
    simp [targetRead, getTargetFields, heapGet_heapSet_self, lookupField,
      removeField, getFirst_filter_self]
  · intro k2 hk2
    show targetRead (heapSet h m.rawAddr
        (removeField (getTargetFields h m.rawAddr) k)) m.rawAddr k2 = _
    simp [targetRead, getTargetFields, heapGet_heapSet_self, lookupField,
      removeField, getFirst_filter_other _ _ _ hk2]
  · simp [saveWith, trapDelete, storageSet, getFirst, getTargetFields,
      heapGet_heapSet_self]

/-- Witness for C8 at the concrete baseline from the specification:
after deleting the field remove and flushing, the persisted mapping is
exactly the container with only keep left. -/
theorem delete_propagation_witness :
    ("keep" ≠ "remove")
    ∧ targetRead (trapDelete
        [(0, [("keep", FieldVal.prim (Val.vStr "value")),
              ("remove", FieldVal.prim (Val.vStr "toDelete"))])]
        0 "remove" { rawAddr := 0, dirty := false }).1 0 "keep"
      = targetRead [(0, [("keep", FieldVal.prim (Val.vStr "value")),
              ("remove", FieldVal.prim (Val.vStr "toDelete"))])] 0 "keep"
    ∧ getFirst (saveWith "key" (trapDelete
        [(0, [("keep", FieldVal.prim (Val.vStr "value")),
              ("remove", FieldVal.prim (Val.vStr "toDelete"))])]
        0 "remove" { rawAddr := 0, dirty := false }).1
        (trapDelete
        [(0, [("keep", FieldVal.prim (Val.vStr "value")),
              ("remove", FieldVal.prim (Val.vStr "toDelete"))])]
        0 "remove" { rawAddr := 0, dirty := false }).2.1
        { entries := [], trace := [] } none).2.2.entries "key"
      = some [("keep", FieldVal.prim (Val.vStr "value"))] :=
  ⟨by decide,
   (delete_propagation
      [(0, [("keep", FieldVal.prim (Val.vStr "value")),
            ("remove", FieldVal.prim (Val.vStr "toDelete"))])]
      { rawAddr := 0, dirty := false } { entries := [], trace := [] }
      "key" "remove").2.2.2.1 "keep" (by decide),
   (delete_propagation
      [(0, [("keep", FieldVal.prim (Val.vStr "value")),
            ("remove", FieldVal.prim (Val.vStr "toDelete"))])]
      { rawAddr := 0, dirty := false } { entries := [], trace := [] }
      "key" "remove").2.2.2.2⟩

/-- C9: a storage failure during flush (storage.set) or reset
(storage.delete) propagates unchanged to the caller: the returned error
is exactly the thrown one, exactly one call was attempted (no retry),
the entries are untouched and the session and heap state are left as
they were (no fallback value is substituted). -/
theorem storage_error_propagation (key : String) (h : Heap) (m : SessionMgr)
    (st st2 : Storage) (baseline : Option Container) (e1 e2 : Err)
    (hd : m.dirty = true) :
    ((saveWith key h m st (some e1)).1 = some e1
      ∧ (saveWith key h m st (some e1)).2.1 = m
      ∧ (saveWith key h m st (some e1)).2.2.entries = st.entries
      ∧ setCount key (saveWith key h m st (some e1)).2.2.trace
        = setCount key st.trace + 1)
    ∧ ((clearWith key h m st2 baseline (some e2)).1 = some e2
      ∧ (clearWith key h m st2 baseline (some e2)).2.1 = h
      ∧ (clearWith key h m st2 baseline (some e2)).2.2.1 = m
      ∧ (clearWith key h m st2 baseline (some e2)).2.2.2.entries = st2.entries
      ∧ (clearWith key h m st2 baseline (some e2)).2.2.2.trace
        = st2.trace ++ [.deleteOp key]) := by
  refine ⟨⟨?_, ?_, ?_, ?_⟩, rfl, rfl, rfl, rfl, rfl⟩
  · simp [saveWith, hd]
  · simp [saveWith, hd]
  · simp [saveWith, hd]
  · simp [saveWith, hd, setCount_append, setCount]

/-- Witness for C9 at a concrete dirty session and a concrete thrown
error. -/
theorem storage_error_propagation_witness :
    (({ rawAddr := 0, dirty := true } : SessionMgr).dirty = true)
    ∧ (saveWith "k" [] { rawAddr := 0, dirty := true }
        { entries := [], trace := [] } (some "boom")).1 = some "boom" :=
  ⟨rfl,
   (storage_error_propagation "k" [] { rawAddr := 0, dirty := true }
      { entries := [], trace := [] } { entries := [], trace := [] }
      none "boom" "x" rfl).1.1⟩

/-- C10: when storage.set rejects during save, the dirty flag remains
true — the session still reports unsaved changes — and a subsequent
save issues the set again, updates the entries, and only after the
successful set is the dirty flag cleared. -/
theorem dirty_survives_failed_save (key : String) (h : Heap) (m : SessionMgr)
    (st : Storage) (e : Err) (hd : m.dirty = true) :
    (saveWith key h m st (some e)).2.1.dirty = true
    ∧ (saveWith key h
        (saveWith key h m st (some e)).2.1
        (saveWith key h m st (some e)).2.2 none).2.1.dirty = false
    ∧ setCount key (saveWith key h
        (saveWith key h m st (some e)).2.1
        (saveWith key h m st (some e)).2.2 none).2.2.trace
      = setCount key (saveWith key h m st (some e)).2.2.trace + 1
    ∧ (saveWith key h
        (saveWith key h m st (some e)).2.1
        (saveWith key h m st (some e)).2.2 none).2.2.entries
      = (storageSet key (dataToStore (getTargetFields h m.rawAddr))
          (saveWith key h m st (some e)).2.2).entries := by
  refine ⟨?_, ?_, ?_, ?_⟩ <;>
    simp [saveWith, hd, storageSet, setCount_append, setCount]

/-- Witness for C10 at a concrete dirty session and failing set. -/
theorem dirty_survives_failed_save_witness :
    (({ rawAddr := 0, dirty := true } : SessionMgr).dirty = true)
    ∧ (saveWith "k" [] { rawAddr := 0, dirty := true }
        { entries := [], trace := [] } (some "boom")).2.1.dirty = true :=
  ⟨rfl,
   (dirty_survives_failed_save "k" [] { rawAddr := 0, dirty := true }
      { entries := [], trace := [] } "boom" rfl).1⟩

/-- C1: evaluation of the code at the failing input for the batching
claim. Update 1, from the baseline with a nested items array, writes
one element and flushes exactly once. Update 2 loads the stored object
— the bundled in-memory storage returns the reference save stored,
whose nested items array is shared by the shallow copy — performs one
field-level mutation through the wrapped session (the write lands on
the raw array, first conjuncts) and never replaces the session value,
yet issues ZERO storage set calls: its trace extension is a single
get. The nested wrapper came from the module-level cache, so its
handler still invokes the markDirty of the update-1 manager (id 0,
left dirty although its unit of work is over) while the update-2
manager (id 1) stays clean and the end-of-update hook skips the save —
although the claim, and the source comment about reducing storage
calls from N to 1 per update, require exactly one set here. -/
theorem eager_batching_failure :
    targetRead afterUpdate1.heap 0 "1" = none
    ∧ targetRead afterUpdate2.heap 0 "1"
        = some (FieldVal.prim (Val.vStr "b"))
    ∧ setCount "k" afterUpdate1.trace = 1
    ∧ afterUpdate2.trace = afterUpdate1.trace ++ [StorageOp.getOp "k"]
    ∧ setCount "k" afterUpdate2.trace = setCount "k" afterUpdate1.trace
    ∧ (mgrAt afterUpdate2.managers 1).map SessionMgr.dirty = some false
    ∧ (mgrAt afterUpdate2.managers 0).map SessionMgr.dirty = some true := by
  refine ⟨rfl, rfl, rfl, rfl, rfl, rfl, rfl⟩

end GramioSession
